import Mathlib

/-!
Verification of the AHP pairwise-comparison matrix builder and consistency
evaluator of `app.py` (Streamlit survey application).

Embedding notes.

* The comparison matrix (`np.ones((n, n))` followed by cell assignments) is
  embedded as a total function `Nat → Nat → ℚ`; only cells with both indices
  below `n` are meaningful.  Matrix entries are modelled as exact rationals:
  the intensities offered by the survey are the integers 1..9, and for every
  integer `v` in that range IEEE double arithmetic computes `v * (1/v) = 1`
  exactly, so the rational model agrees with the source on every value the
  claims quantify over.
* The respondent's per-pair form state (`choice`, `value` selectboxes, keyed
  by the pair `(i, j)` with `i < j`) is embedded as a function
  `Nat → Nat → Option (Bool × Nat)`: `none` when either selectbox is left at
  the falsy `""`, otherwise `some (winnerIsI, intensity)` where `winnerIsI`
  is the test `choice == criteria[i]`.
* `np.linalg.eig` is a floating-point eigensolver and is treated as an
  oracle: `calculate_cr` takes the list of eigenvalues (real and imaginary
  part) as an input.  All arithmetic downstream of the eigensolver is
  embedded exactly, except that division is given IEEE semantics for the
  zero denominator (`x / 0.0` on `np.float64` values yields `inf`, `-inf`
  or `nan` with a RuntimeWarning, it does not raise), which the `PyVal`
  type makes explicit.  Python decimal literals such as `0.58` are modelled
  by the rationals they denote.
-/

namespace AHP

/-- A dense matrix, as a total function on indices; `app.py` line 296 creates
`np.ones((len(criteria), len(criteria)))`. -/
abbrev Mat := Nat → Nat → ℚ

/-- The `np.ones` initial matrix: every cell is 1. -/
def ones : Mat := fun _ _ => 1

/-- A single numpy cell assignment `matrix[a][b] = v`. -/
def setCell (m : Mat) (a b : Nat) (v : ℚ) : Mat :=
  fun x y => if x = a ∧ y = b then v else m x y

/-- `list(itertools.combinations(range(n), 2))` (line 295): the pairs
`(i, j)` with `i < j < n`, in lexicographic order. -/
def pairs (n : Nat) : List (Nat × Nat) :=
  ((List.range n).product (List.range n)).filter (fun p => decide (p.1 < p.2))

/-- The respondent's form state for the pair `(i, j)`, `i < j`: `none` when
`choice` or `value` is the falsy `""`, else `some (choice == criteria[i],
value)` with `value` the selected intensity (lines 300–315). -/
abbrev Answers := Nat → Nat → Option (Bool × Nat)

/-- Lines 317–323 of `app.py`, for one pair `p = (i, j)`:

    if choice and value:
        if choice == criteria[i]:
            matrix[i][j] = value
            matrix[j][i] = 1 / value
        else:
            matrix[j][i] = value
            matrix[i][j] = 1 / value
-/
def applyPair (ans : Answers) (m : Mat) (p : Nat × Nat) : Mat :=
  match ans p.1 p.2 with
  | none => m
  | some (true, v) => setCell (setCell m p.1 p.2 (v : ℚ)) p.2 p.1 (1 / (v : ℚ))
  | some (false, v) => setCell (setCell m p.2 p.1 (v : ℚ)) p.1 p.2 (1 / (v : ℚ))

/-- The full matrix-building loop of the respondent survey block: start from
`np.ones` and run lines 317–323 over `itertools.combinations(range n, 2)`. -/
def buildMatrix (n : Nat) (ans : Answers) : Mat :=
  (pairs n).foldl (applyPair ans) ones

/-- The value the loop leaves in the upper cell `(i, j)` of a pair `i < j`,
given the default `d` that was there before: `value` when the lower-indexed
criterion wins, `1 / value` when the other does, `d` when unanswered. -/
def topVal (d : ℚ) : Option (Bool × Nat) → ℚ
  | none => d
  | some (true, v) => (v : ℚ)
  | some (false, v) => 1 / (v : ℚ)

/-- The value the loop leaves in the lower cell `(j, i)` of a pair `i < j`. -/
def botVal (d : ℚ) : Option (Bool × Nat) → ℚ
  | none => d
  | some (true, v) => 1 / (v : ℚ)
  | some (false, v) => (v : ℚ)

lemma setCell_same (m : Mat) (a b : Nat) (v : ℚ) : setCell m a b v a b = v :=
  if_pos ⟨rfl, rfl⟩

lemma setCell_other (m : Mat) (a b : Nat) (v : ℚ) (x y : Nat)
    (h : ¬(x = a ∧ y = b)) : setCell m a b v x y = m x y :=
  if_neg h

/-- A pair whose two cells are not `(x, y)` leaves the cell `(x, y)` alone. -/
lemma applyPair_apply_ne (ans : Answers) (m : Mat) (p : Nat × Nat) (x y : Nat)
    (h1 : ¬(x = p.1 ∧ y = p.2)) (h2 : ¬(x = p.2 ∧ y = p.1)) :
    applyPair ans m p x y = m x y := by
  rcases hv : ans p.1 p.2 with _ | ⟨w, v⟩
  · simp only [applyPair, hv]
  · cases w
    · simp only [applyPair, hv]
      rw [setCell_other _ _ _ _ _ _ h1, setCell_other _ _ _ _ _ _ h2]
    · simp only [applyPair, hv]
      rw [setCell_other _ _ _ _ _ _ h2, setCell_other _ _ _ _ _ _ h1]

/-- After the loop, the upper cell `(a, b)` of a pair `a < b` holds `topVal`
of its own answer; no other iteration touches it. -/
lemma foldl_top (ans : Answers) (a b : Nat) (hab : a < b) :
    ∀ (l : List (Nat × Nat)) (m : Mat), (∀ p ∈ l, p.1 < p.2) →
      l.foldl (applyPair ans) m a b =
        if (a, b) ∈ l then topVal (m a b) (ans a b) else m a b := by
  intro l
  induction l with
  | nil => intro m _; simp
  | cons q t ih =>
    intro m hl
    have ht : ∀ p ∈ t, p.1 < p.2 := fun p hp => hl p (List.mem_cons_of_mem q hp)
    rw [List.foldl_cons, ih (applyPair ans m q) ht]
    by_cases hq : q = (a, b)
    · subst hq
      rw [if_pos (List.mem_cons_self _ _)]
      by_cases hm : ((a, b) : Nat × Nat) ∈ t
      · rw [if_pos hm]
        rcases hv : ans a b with _ | ⟨w, v⟩
        · simp only [topVal, applyPair, hv]
        · cases w <;> simp only [topVal]
      · rw [if_neg hm]
        have hne : a ≠ b := Nat.ne_of_lt hab
        rcases hv : ans a b with _ | ⟨w, v⟩
        · simp only [applyPair, hv, topVal]
        · cases w <;> simp [applyPair, hv, topVal, setCell, hne, hne.symm]
    · have hq1 : q.1 < q.2 := hl q (List.mem_cons_self q t)
      have h1 : ¬(a = q.1 ∧ b = q.2) := by
        rintro ⟨ha, hb⟩
        exact hq (by obtain ⟨q1, q2⟩ := q; simp_all)
      have h2 : ¬(a = q.2 ∧ b = q.1) := by rintro ⟨ha, hb⟩; omega
      rw [applyPair_apply_ne ans m q a b h1 h2]
      by_cases hm : ((a, b) : Nat × Nat) ∈ t
      · rw [if_pos hm, if_pos (List.mem_cons_of_mem q hm)]
      · rw [if_neg hm, if_neg (by
          intro hc
          rcases List.mem_cons.mp hc with h | h
          · exact hq h.symm
          · exact hm h)]

/-- After the loop, the lower cell `(b, a)` of a pair `a < b` holds `botVal`
of its own answer. -/
lemma foldl_bot (ans : Answers) (a b : Nat) (hab : a < b) :
    ∀ (l : List (Nat × Nat)) (m : Mat), (∀ p ∈ l, p.1 < p.2) →
      l.foldl (applyPair ans) m b a =
        if (a, b) ∈ l then botVal (m b a) (ans a b) else m b a := by
  intro l
  induction l with
  | nil => intro m _; simp
  | cons q t ih =>
    intro m hl
    have ht : ∀ p ∈ t, p.1 < p.2 := fun p hp => hl p (List.mem_cons_of_mem q hp)
    rw [List.foldl_cons, ih (applyPair ans m q) ht]
    by_cases hq : q = (a, b)
    · subst hq
      rw [if_pos (List.mem_cons_self _ _)]
      by_cases hm : ((a, b) : Nat × Nat) ∈ t
      · rw [if_pos hm]
        rcases hv : ans a b with _ | ⟨w, v⟩
        · simp only [botVal, applyPair, hv]
        · cases w <;> simp only [botVal]
      · rw [if_neg hm]
        have hne : a ≠ b := Nat.ne_of_lt hab
        rcases hv : ans a b with _ | ⟨w, v⟩
        · simp only [applyPair, hv, botVal]
        · cases w <;> simp [applyPair, hv, botVal, setCell, hne, hne.symm]
    · have hq1 : q.1 < q.2 := hl q (List.mem_cons_self q t)
      have h1 : ¬(b = q.1 ∧ a = q.2) := by rintro ⟨hb, ha⟩; omega
      have h2 : ¬(b = q.2 ∧ a = q.1) := by
        rintro ⟨hb, ha⟩
        exact hq (by obtain ⟨q1, q2⟩ := q; simp_all)
      rw [applyPair_apply_ne ans m q b a h1 h2]
      by_cases hm : ((a, b) : Nat × Nat) ∈ t
      · rw [if_pos hm, if_pos (List.mem_cons_of_mem q hm)]
      · rw [if_neg hm, if_neg (by
          intro hc
          rcases List.mem_cons.mp hc with h | h
          · exact hq h.symm
          · exact hm h)]

lemma mem_pairs {n a b : Nat} : ((a, b) : Nat × Nat) ∈ pairs n ↔ a < b ∧ b < n := by
  simp only [pairs, List.mem_filter, List.pair_mem_product, List.mem_range,
    decide_eq_true_eq]
  omega

lemma pairs_fst_lt_snd {n : Nat} : ∀ p ∈ pairs n, p.1 < p.2 := by
  intro p hp
  obtain ⟨a, b⟩ := p
  exact (mem_pairs.mp hp).1

/-- Diagonal cells are never written: they keep the `np.ones` value 1. -/
lemma buildMatrix_diag (n : Nat) (ans : Answers) (i : Nat) :
    buildMatrix n ans i i = 1 := by
  unfold buildMatrix
  have : ∀ (l : List (Nat × Nat)) (m : Mat), (∀ p ∈ l, p.1 < p.2) →
      l.foldl (applyPair ans) m i i = m i i := by
    intro l
    induction l with
    | nil => intro m _; rfl
    | cons q t ih =>
      intro m hl
      have hq : q.1 < q.2 := hl q (List.mem_cons_self q t)
      rw [List.foldl_cons,
        ih (applyPair ans m q) (fun p hp => hl p (List.mem_cons_of_mem q hp)),
        applyPair_apply_ne ans m q i i (by rintro ⟨h1, h2⟩; omega)
          (by rintro ⟨h1, h2⟩; omega)]
  rw [this (pairs n) ones pairs_fst_lt_snd]
  rfl

lemma buildMatrix_top {n a b : Nat} (ans : Answers) (hab : a < b) (hbn : b < n) :
    buildMatrix n ans a b = topVal 1 (ans a b) := by
  unfold buildMatrix
  rw [foldl_top ans a b hab (pairs n) ones pairs_fst_lt_snd,
    if_pos (mem_pairs.mpr ⟨hab, hbn⟩)]
  rfl

lemma buildMatrix_bot {n a b : Nat} (ans : Answers) (hab : a < b) (hbn : b < n) :
    buildMatrix n ans b a = botVal 1 (ans a b) := by
  unfold buildMatrix
  rw [foldl_bot ans a b hab (pairs n) ones pairs_fst_lt_snd,
    if_pos (mem_pairs.mpr ⟨hab, hbn⟩)]
  rfl

/-- The product of the two cells of a pair is exactly 1 whenever the answer,
if any, has a nonzero intensity. -/
lemma topVal_mul_botVal (o : Option (Bool × Nat))
    (ho : ∀ w v, o = some (w, v) → 1 ≤ v) :
    topVal 1 o * botVal 1 o = 1 := by
  rcases o with _ | ⟨w, v⟩
  · simp [topVal, botVal]
  · have h1 : 1 ≤ v := ho w v rfl
    have hv : (v : ℚ) ≠ 0 := Nat.cast_ne_zero.mpr (by omega)
    cases w
    · simp only [topVal, botVal]
      rw [one_div, inv_mul_cancel₀ hv]
    · simp only [topVal, botVal]
      rw [one_div, mul_inv_cancel₀ hv]

/-!
Consistency evaluator, `app.py` lines 26–38:

    RI = {1: 0.00, 2: 0.00, 3: 0.58, 4: 0.90, 5: 1.12,
          6: 1.24, 7: 1.32, 8: 1.41, 9: 1.45, 10: 1.49}

    def calculate_cr(matrix):
        matrix = np.array(matrix)
        n = matrix.shape[0]
        eigvals, _ = np.linalg.eig(matrix)
        lambda_max = max(eigvals.real)
        CI = (lambda_max - n) / (n - 1)
        CR = CI / RI[n] if n in RI else 0
        return round(CR, 4)

`np.linalg.eig` is the floating-point oracle: the eigenvalue list (pairs of
real and imaginary part) is an input of the embedding.  `lambda_max`, `CI`
and `CR` are `np.float64` values; dividing an `np.float64` by zero does not
raise, it produces `inf`, `-inf` or `nan` (with a RuntimeWarning), and
`round` passes those through — `PyVal` carries exactly these possibilities.
-/

/-- An `np.float64` value as the evaluator can produce it: a finite number
(modelled exactly as a rational), an infinity, or `nan`. -/
inductive PyVal
  | fin : ℚ → PyVal
  | inf : PyVal
  | ninf : PyVal
  | nan : PyVal
deriving DecidableEq

/-- Division of finite floats, with the IEEE-754 zero-denominator results
(`0/0 = nan`, `x/0 = ±inf`) that numpy scalars produce instead of raising. -/
def pyDivQ (a b : ℚ) : PyVal :=
  if b = 0 then (if a = 0 then .nan else if 0 < a then .inf else .ninf)
  else .fin (a / b)

/-- Division of an evaluator intermediate by a finite float. -/
def pyDivV : PyVal → ℚ → PyVal
  | .fin a, b => pyDivQ a b
  | .inf, b => if b < 0 then .ninf else .inf
  | .ninf, b => if b < 0 then .inf else .ninf
  | .nan, _ => .nan

/-- Round half to even at integer precision, as Python's `round` does. -/
def roundHalfEven (x : ℚ) : ℤ :=
  let f : ℤ := ⌊x⌋
  let r : ℚ := x - (f : ℚ)
  if r < 1 / 2 then f
  else if 1 / 2 < r then f + 1
  else if f % 2 = 0 then f else f + 1

/-- Python's `round(x, 4)` on a finite value. -/
def round4 (x : ℚ) : ℚ := (roundHalfEven (x * 10000) : ℚ) / 10000

/-- Python's `round(x, 4)`: `inf` and `nan` pass through unchanged. -/
def pyRound4 : PyVal → PyVal
  | .fin a => .fin (round4 a)
  | v => v

/-- The Random Index dictionary `RI` (lines 26–29); `none` models a missing
key, so that `n in RI` is `(RI_table n).isSome`. -/
def RI_table (n : Nat) : Option ℚ :=
  match n with
  | 1 => some 0
  | 2 => some 0
  | 3 => some (58 / 100)
  | 4 => some (90 / 100)
  | 5 => some (112 / 100)
  | 6 => some (124 / 100)
  | 7 => some (132 / 100)
  | 8 => some (141 / 100)
  | 9 => some (145 / 100)
  | 10 => some (149 / 100)
  | _ => none

/-- Python's `max` over a list of reals; the `[]` case is unreachable for an
n×n matrix with n ≥ 1 (Python's `max` raises there). -/
def listMax : List ℚ → ℚ
  | [] => 0
  | x :: xs => xs.foldl max x

/-- `lambda_max = max(eigvals.real)` (line 35). -/
def lambdaMaxOf (eig : List (ℚ × ℚ)) : ℚ := listMax (eig.map Prod.fst)

/-- `calculate_cr` (lines 31–38), with the eigensolver as an oracle: `eig`
is what `np.linalg.eig` returned for the matrix and `n` the matrix size. -/
def calculate_cr (eig : List (ℚ × ℚ)) (n : Nat) : PyVal :=
  let lambda_max := lambdaMaxOf eig
  let CI := pyDivQ (lambda_max - (n : ℚ)) ((n : ℚ) - 1)
  let CR := match RI_table n with
    | some r => pyDivV CI r
    | none => PyVal.fin 0
  pyRound4 CR

lemma foldl_max_init_le (xs : List ℚ) : ∀ a : ℚ, a ≤ xs.foldl max a := by
  induction xs with
  | nil => intro a; exact le_refl a
  | cons x t ih =>
    intro a
    exact le_trans (le_max_left a x) (ih (max a x))

lemma le_foldl_max (xs : List ℚ) : ∀ (a x : ℚ), x ∈ xs → x ≤ xs.foldl max a := by
  induction xs with
  | nil => intro a x hx; cases hx
  | cons y t ih =>
    intro a x hx
    rcases List.mem_cons.mp hx with h | h
    · subst h
      exact le_trans (le_max_right a x) (foldl_max_init_le t (max a x))
    · exact ih (max a y) x h

lemma foldl_max_mem (xs : List ℚ) : ∀ a : ℚ, xs.foldl max a = a ∨ xs.foldl max a ∈ xs := by
  induction xs with
  | nil => intro a; exact Or.inl rfl
  | cons y t ih =>
    intro a
    rw [List.foldl_cons]
    rcases ih (max a y) with h | h
    · rcases max_choice a y with hc | hc
      · exact Or.inl (by rw [h, hc])
      · exact Or.inr (by rw [h, hc]; exact List.mem_cons_self y t)
    · exact Or.inr (List.mem_cons_of_mem y h)

/-- Every real part is bounded by `lambda_max`. -/
lemma le_lambdaMaxOf (eig : List (ℚ × ℚ)) (p : ℚ × ℚ) (hp : p ∈ eig) :
    p.1 ≤ lambdaMaxOf eig := by
  unfold lambdaMaxOf listMax
  have hmem : p.1 ∈ eig.map Prod.fst := List.mem_map_of_mem Prod.fst hp
  rcases h : eig.map Prod.fst with _ | ⟨x, xs⟩
  · rw [h] at hmem; cases hmem
  · rw [h] at hmem
    rcases List.mem_cons.mp hmem with hx | hx
    · subst hx; exact foldl_max_init_le xs p.1
    · exact le_foldl_max xs x p.1 hx

/-- `lambda_max` is one of the real parts when the list is not empty. -/
lemma lambdaMaxOf_mem (eig : List (ℚ × ℚ)) (h : eig ≠ []) :
    lambdaMaxOf eig ∈ eig.map Prod.fst := by
  unfold lambdaMaxOf listMax
  rcases he : eig.map Prod.fst with _ | ⟨x, xs⟩
  · exact absurd (List.map_eq_nil_iff.mp he) h
  · show List.foldl max x xs ∈ x :: xs
    rcases foldl_max_mem xs x with hc | hc
    · rw [hc]; exact List.mem_cons_self x xs
    · exact List.mem_cons_of_mem x hc

/-- Modelled from the spec: the judgment triple of §3 — an unordered pair
`{i, j}` referenced by position, a winner flag (whether the lower-indexed
criterion `i` is preferred) and an intensity on the 1–9 Saaty scale.  The
source keeps this state only implicitly in the two selectboxes of each form
row. -/
structure Judgment where
  i : Nat
  j : Nat
  winnerIsI : Bool
  intensity : Nat
deriving DecidableEq

/-- Modelled from the spec: the builder's client-input validation failures of
§4.1 and §7.  No validation code exists in `src/app.py` (the selectboxes only
offer intensities 1..9 and the two criteria of the row), so the error
taxonomy is taken from the spec's words. -/
inductive BuildError
  | InvalidIntensity : BuildError
  | InvalidIndex : BuildError
deriving DecidableEq

/-- Modelled from the spec (§4.1): fails with `InvalidIntensity` if intensity
is outside [1,9] or zero; fails with `InvalidIndex` if `i` or `j` is outside
[0,n). -/
def validateJudgment (n : Nat) (jm : Judgment) : Option BuildError :=
  if jm.intensity < 1 ∨ 9 < jm.intensity then some BuildError.InvalidIntensity
  else if n ≤ jm.i ∨ n ≤ jm.j then some BuildError.InvalidIndex
  else none

/-- Modelled from the spec (§4.1): the checked builder validates each
judgment in turn and applies the valid ones (winner's cell gets the
intensity, the mirror cell its reciprocal), propagating the first failure. -/
def buildChecked (n : Nat) : List Judgment → Mat → Except BuildError Mat
  | [], m => Except.ok m
  | jm :: rest, m =>
    match validateJudgment n jm with
    | some e => Except.error e
    | none =>
      if jm.winnerIsI then
        buildChecked n rest
          (setCell (setCell m jm.i jm.j (jm.intensity : ℚ)) jm.j jm.i
            (1 / (jm.intensity : ℚ)))
      else
        buildChecked n rest
          (setCell (setCell m jm.j jm.i (jm.intensity : ℚ)) jm.i jm.j
            (1 / (jm.intensity : ℚ)))

/-- Modelled from the spec (§8, round-trip): re-derive a pair's judgment from
the built matrix — the winner is the side whose entry is at least 1, the
intensity is that entry's value.  The spec's rule does not say which side
wins when both entries equal 1 (an intensity-1 judgment); this embedding
resolves the tie toward the lower-indexed criterion `i`, and the symmetric
tie-break fails on the mirrored input. -/
def deriveJudgment (m : Mat) (i j : Nat) : Bool × ℚ :=
  if 1 ≤ m i j then (true, m i j) else (false, m j i)

/-- The admin form's criterion-count constraint, `app.py` lines 102–107:
`st.number_input("Número de criterios", min_value=2, max_value=10, step=1)`
accepts exactly the counts 2..10. -/
def n_criteria_accepted (n : Nat) : Bool :=
  decide (2 ≤ n ∧ n ≤ 10)

/-- The submission block's insert loop, `app.py` lines 351–360: one
`(i, j, value)` row per cell of the n×n matrix, row-major. -/
def storeRows (n : Nat) (m : Mat) : List (Nat × Nat × ℚ) :=
  ((List.range n).product (List.range n)).map (fun p => (p.1, p.2, m p.1 p.2))

/-- The download block's reconstruction, `app.py` lines 198–202:
`matrix = np.ones((size, size))` then `matrix[i][j] = v` per stored row. -/
def reconstruct (data : List (Nat × Nat × ℚ)) : Mat :=
  data.foldl (fun acc r => setCell acc r.1 r.2.1 r.2.2) ones

lemma reconstruct_fold_untouched (i j : Nat) :
    ∀ (data : List (Nat × Nat × ℚ)) (acc : Mat),
      (∀ r ∈ data, ¬(i = r.1 ∧ j = r.2.1)) →
      data.foldl (fun acc r => setCell acc r.1 r.2.1 r.2.2) acc i j = acc i j := by
  intro data
  induction data with
  | nil => intro acc _; rfl
  | cons r t ih =>
    intro acc h
    rw [List.foldl_cons, ih _ (fun s hs => h s (List.mem_cons_of_mem r hs)),
      setCell_other _ _ _ _ _ _ (h r (List.mem_cons_self r t))]

/-- If every stored row keyed `(i, j)` carries the value `v` and at least one
such row exists, the reconstruction's cell `(i, j)` is `v`. -/
lemma reconstruct_fold_const (i j : Nat) (v : ℚ) :
    ∀ (data : List (Nat × Nat × ℚ)) (acc : Mat),
      (i, j, v) ∈ data →
      (∀ r ∈ data, r.1 = i → r.2.1 = j → r.2.2 = v) →
      data.foldl (fun acc r => setCell acc r.1 r.2.1 r.2.2) acc i j = v := by
  intro data
  induction data with
  | nil => intro acc hm _; cases hm
  | cons r t ih =>
    intro acc hm hv
    rw [List.foldl_cons]
    by_cases hk : r.1 = i ∧ r.2.1 = j
    · have hrv : r.2.2 = v := hv r (List.mem_cons_self r t) hk.1 hk.2
      by_cases hone : ∀ s ∈ t, ¬(i = s.1 ∧ j = s.2.1)
      · rw [reconstruct_fold_untouched i j t _ hone]
        rw [← hk.1, ← hk.2, setCell_same, hrv]
      · push_neg at hone
        obtain ⟨s, hs, hs1, hs2⟩ := hone
        have hseq : s = (i, j, v) := by
          have h3 : s.2.2 = v := hv s (List.mem_cons_of_mem r hs) hs1.symm hs2.symm
          obtain ⟨s1, s2, s3⟩ := s
          simp only [Prod.mk.injEq]
          exact ⟨hs1.symm, hs2.symm, h3⟩
        rw [hseq] at hs
        exact ih _ hs (fun u hu => hv u (List.mem_cons_of_mem r hu))
    · have hmem : (i, j, v) ∈ t := by
        rcases List.mem_cons.mp hm with h | h
        · exact absurd ⟨by rw [← h], by rw [← h]⟩ hk
        · exact h
      exact ih _ hmem (fun u hu => hv u (List.mem_cons_of_mem r hu))

lemma mem_storeRows {n : Nat} {m : Mat} {i j : Nat} {v : ℚ} :
    (i, j, v) ∈ storeRows n m ↔ i < n ∧ j < n ∧ v = m i j := by
  simp only [storeRows, List.mem_map]
  constructor
  · rintro ⟨⟨a, b⟩, hab, heq⟩
    rw [List.pair_mem_product, List.mem_range, List.mem_range] at hab
    simp only [Prod.mk.injEq] at heq
    obtain ⟨h1, h2, h3⟩ := heq
    subst h1; subst h2
    exact ⟨hab.1, hab.2, h3.symm⟩
  · rintro ⟨hi, hj, hv⟩
    refine ⟨(i, j), ?_, ?_⟩
    · rw [List.pair_mem_product, List.mem_range, List.mem_range]
      exact ⟨hi, hj⟩
    · rw [hv]

/-- Whether an evaluator result is a finite number (as opposed to the `inf`,
`-inf` or `nan` a zero denominator produces). -/
def pyIsFinite : PyVal → Bool
  | .fin _ => true
  | _ => false

lemma pyDivQ_zero_not_finite (a : ℚ) : pyIsFinite (pyDivQ a 0) = false := by
  unfold pyDivQ
  rw [if_pos rfl]
  split_ifs <;> rfl

lemma pyRound4_not_finite (v : PyVal) (h : pyIsFinite v = false) :
    pyIsFinite (pyRound4 v) = false := by
  cases v
  · exact absurd h (by simp [pyIsFinite])
  · rfl
  · rfl
  · rfl

/-- For a matrix size whose Random Index is the float 0.0, the final division
`CI / RI[n]` has a zero denominator, so the result is never finite. -/
lemma calculate_cr_not_finite_of_RI_zero (eig : List (ℚ × ℚ)) (n : Nat)
    (hn : RI_table n = some 0) : pyIsFinite (calculate_cr eig n) = false := by
  simp only [calculate_cr, hn]
  apply pyRound4_not_finite
  cases hCI : pyDivQ (lambdaMaxOf eig - (n : ℚ)) ((n : ℚ) - 1) with
  | fin a => exact pyDivQ_zero_not_finite a
  | inf => decide
  | ninf => decide
  | nan => decide

/-!  The claims. -/

/-- C1: for every criterion count n ≥ 2 and every judgment set whose
intensities lie in [1,9], the built matrix has `matrix[i][i] = 1` for every
i and satisfies the exact reciprocal invariant
`matrix[i][j] * matrix[j][i] = 1` for every i ≠ j, whether or not the pair
was judged. -/
theorem c1_reciprocal_invariant (n : Nat) (ans : Answers) (_hn : 2 ≤ n)
    (hv : ∀ i j w v, i < j → j < n → ans i j = some (w, v) → 1 ≤ v ∧ v ≤ 9) :
    (∀ i, i < n → buildMatrix n ans i i = 1) ∧
    (∀ i j, i < n → j < n → i ≠ j →
      buildMatrix n ans i j * buildMatrix n ans j i = 1) := by
  refine ⟨fun i _ => buildMatrix_diag n ans i, fun i j hi hj hne => ?_⟩
  rcases lt_trichotomy i j with h | h | h
  · rw [buildMatrix_top ans h hj, buildMatrix_bot ans h hj]
    exact topVal_mul_botVal _ (fun w v hwv => (hv i j w v h hj hwv).1)
  · exact absurd h hne
  · rw [buildMatrix_bot ans h hi, buildMatrix_top ans h hi, mul_comm]
    exact topVal_mul_botVal _ (fun w v hwv => (hv j i w v h hi hwv).1)

/-- A concrete two-criterion answer set: criterion 0 beats criterion 1 with
intensity 3. -/
def ansC1 : Answers := fun i j => if i = 0 ∧ j = 1 then some (true, 3) else none

/-- Witness for C1 at n = 2 with a single intensity-3 judgment. -/
theorem c1_witness :
    buildMatrix 2 ansC1 0 0 = 1 ∧
    buildMatrix 2 ansC1 0 1 * buildMatrix 2 ansC1 1 0 = 1 := by
  have h := c1_reciprocal_invariant 2 ansC1 (by decide)
    (by
      intro i j w v _ _ hj
      unfold ansC1 at hj
      by_cases hc : i = 0 ∧ j = 1
      · rw [if_pos hc] at hj
        simp only [Option.some.injEq, Prod.mk.injEq] at hj
        omega
      · rw [if_neg hc] at hj
        cases hj)
  exact ⟨h.1 0 (by decide), h.2 0 1 (by decide) (by decide) (by decide)⟩

/-- C4: a judged pair places the intensity in the winner's cell and its exact
reciprocal in the mirror cell; an unanswered pair leaves both cells at the
initialized 1. -/
theorem c4_builder_per_pair (n : Nat) (ans : Answers) (i j : Nat)
    (hij : i < j) (hjn : j < n) :
    (∀ v : Nat, 1 ≤ v →
      (ans i j = some (true, v) →
        buildMatrix n ans i j = (v : ℚ) ∧ buildMatrix n ans j i = 1 / (v : ℚ)) ∧
      (ans i j = some (false, v) →
        buildMatrix n ans j i = (v : ℚ) ∧ buildMatrix n ans i j = 1 / (v : ℚ))) ∧
    (ans i j = none → buildMatrix n ans i j = 1 ∧ buildMatrix n ans j i = 1) := by
  refine ⟨fun v _ => ⟨fun h => ?_, fun h => ?_⟩, fun h => ?_⟩ <;>
    rw [buildMatrix_top ans hij hjn, buildMatrix_bot ans hij hjn, h] <;>
    exact ⟨rfl, rfl⟩

/-- A concrete two-criterion answer set: criterion 1 beats criterion 0 with
intensity 4. -/
def ansC4 : Answers := fun i j => if i = 0 ∧ j = 1 then some (false, 4) else none

/-- Witness for C4: the winner's cell gets 4, the mirror cell 1/4. -/
theorem c4_witness :
    buildMatrix 2 ansC4 1 0 = ((4 : Nat) : ℚ) ∧
    buildMatrix 2 ansC4 0 1 = 1 / ((4 : Nat) : ℚ) :=
  ((c4_builder_per_pair 2 ansC4 0 1 (by decide) (by decide)).1 4 (by decide)).2
    (by decide)

/-- C7: building with the empty judgment set yields the all-ones matrix (at
every cell, for every n), as the claim states; but evaluating the resulting
2×2 all-ones matrix, whose eigenvalues are exactly 2 and 0, divides
CI = 0 by RI[2] = 0.0 and returns nan, not the 0 the claim states. -/
theorem c7_empty_judgments :
    (∀ (n i j : Nat), buildMatrix n (fun _ _ => none) i j = 1) ∧
    calculate_cr [((2 : ℚ), 0), ((0 : ℚ), 0)] 2 = PyVal.nan := by
  constructor
  · intro n i j
    rcases lt_trichotomy i j with h | h | h
    · unfold buildMatrix
      rw [foldl_top _ i j h (pairs n) ones pairs_fst_lt_snd]
      split_ifs <;> rfl
    · subst h
      exact buildMatrix_diag n _ i
    · unfold buildMatrix
      rw [foldl_bot _ j i h (pairs n) ones pairs_fst_lt_snd]
      split_ifs <;> rfl
  · have hRI : RI_table 2 = some 0 := rfl
    have hl : lambdaMaxOf [((2 : ℚ), 0), ((0 : ℚ), 0)] = 2 := by decide
    simp only [calculate_cr, hRI]
    rw [hl]
    norm_num [pyDivQ, pyDivV, pyRound4]

/-- C2: for every size n with RI(n) > 0 (that is, 3 ≤ n ≤ 10) and every
eigenvalue list the oracle can return, the evaluator computes lambda_max as
the maximum real part, CI = (lambda_max - n)/(n - 1), CR = CI / RI(n), and
rounds the result to 4 decimal places. -/
theorem c2_evaluator_formula (eig : List (ℚ × ℚ)) (n : Nat)
    (h3 : 3 ≤ n) (h10 : n ≤ 10) :
    (∀ p ∈ eig, p.1 ≤ lambdaMaxOf eig) ∧
    (eig ≠ [] → lambdaMaxOf eig ∈ eig.map Prod.fst) ∧
    (∃ r : ℚ, RI_table n = some r ∧ 0 < r ∧
      calculate_cr eig n =
        PyVal.fin (round4 ((lambdaMaxOf eig - (n : ℚ)) / ((n : ℚ) - 1) / r))) := by
  refine ⟨fun p hp => le_lambdaMaxOf eig p hp, fun h => lambdaMaxOf_mem eig h, ?_⟩
  interval_cases n <;>
    exact ⟨_, rfl, by norm_num, by
      simp only [calculate_cr, RI_table]
      norm_num [pyDivQ, pyDivV, pyRound4]⟩

/-- The exact eigenvalue multiset {3, 0, 0} of the all-ones 3×3 matrix. -/
def eigC2 : List (ℚ × ℚ) := [(3, 0), (0, 0), (0, 0)]

/-- Witness for C2 at n = 3. -/
theorem c2_witness :
    ∃ r : ℚ, RI_table 3 = some r ∧ 0 < r ∧
      calculate_cr eigC2 3 =
        PyVal.fin (round4
          ((lambdaMaxOf eigC2 - ((3 : Nat) : ℚ)) / (((3 : Nat) : ℚ) - 1) / r)) :=
  (c2_evaluator_formula eigC2 3 (by norm_num) (by norm_num)).2.2

/-- C3: contrary to the claim, for n = 1 and n = 2 the code divides by
RI[n] = 0.0 (numpy float division by zero yields inf, -inf or nan, it does
not raise), so the result is never a finite number — in particular never 0.
For the concrete 2×2 matrix [[1,3],[1/3,1]], whose eigenvalues are exactly
2 and 0, the result is nan. -/
theorem c3_small_n_division_by_zero (eig : List (ℚ × ℚ)) :
    (pyIsFinite (calculate_cr eig 1) = false ∧
     pyIsFinite (calculate_cr eig 2) = false) ∧
    calculate_cr [((2 : ℚ), 0), ((0 : ℚ), 0)] 2 = PyVal.nan := by
  refine ⟨⟨calculate_cr_not_finite_of_RI_zero eig 1 rfl,
    calculate_cr_not_finite_of_RI_zero eig 2 rfl⟩, ?_⟩
  have hRI : RI_table 2 = some 0 := rfl
  have hl : lambdaMaxOf [((2 : ℚ), 0), ((0 : ℚ), 0)] = 2 := by decide
  simp only [calculate_cr, hRI]
  rw [hl]
  norm_num [pyDivQ, pyDivV, pyRound4]

/-- C5: for n = 11 — beyond the Random-Index table — the evaluator does not
signal anything: `CR = CI / RI[n] if n in RI else 0` silently returns the
rounded 0 for every eigenvalue list. -/
theorem c5_ri_table_fallback (eig : List (ℚ × ℚ)) :
    calculate_cr eig 11 = PyVal.fin 0 := by
  have hRI : RI_table 11 = none := rfl
  simp only [calculate_cr, hRI]
  show PyVal.fin (round4 0) = PyVal.fin 0
  norm_num [round4, roundHalfEven]

/-- C6: the (spec-modelled) builder validation rejects every intensity
outside [1,9] with InvalidIntensity, rejects every index outside [0,n) with
InvalidIndex, accepts in-range judgments, and the checked builder propagates
a validation failure as its error result. -/
theorem c6_builder_validation :
    ∀ (n : Nat) (jm : Judgment),
      ((jm.intensity < 1 ∨ 9 < jm.intensity) →
        validateJudgment n jm = some BuildError.InvalidIntensity) ∧
      (1 ≤ jm.intensity → jm.intensity ≤ 9 → (n ≤ jm.i ∨ n ≤ jm.j) →
        validateJudgment n jm = some BuildError.InvalidIndex) ∧
      (1 ≤ jm.intensity → jm.intensity ≤ 9 → jm.i < n → jm.j < n →
        validateJudgment n jm = none) ∧
      (∀ (rest : List Judgment) (m : Mat) (e : BuildError),
        validateJudgment n jm = some e →
        buildChecked n (jm :: rest) m = Except.error e) := by
  intro n jm
  refine ⟨fun h => ?_, fun h1 h9 h => ?_, fun h1 h9 hi hj => ?_,
    fun rest m e he => ?_⟩
  · unfold validateJudgment
    rw [if_pos h]
  · unfold validateJudgment
    rw [if_neg (by omega), if_pos h]
  · unfold validateJudgment
    rw [if_neg (by omega), if_neg (by omega)]
  · unfold buildChecked
    rw [he]

/-- Witness for C6: intensities 0 and 10 are rejected, 1 and 9 accepted, an
index equal to n rejected, at concrete inputs. -/
theorem c6_witness :
    validateJudgment 3 ⟨0, 1, true, 10⟩ = some BuildError.InvalidIntensity ∧
    validateJudgment 3 ⟨0, 1, true, 0⟩ = some BuildError.InvalidIntensity ∧
    validateJudgment 3 ⟨0, 3, true, 9⟩ = some BuildError.InvalidIndex ∧
    validateJudgment 3 ⟨0, 1, true, 1⟩ = none ∧
    validateJudgment 3 ⟨0, 1, true, 9⟩ = none :=
  ⟨(c6_builder_validation 3 ⟨0, 1, true, 10⟩).1 (Or.inr (by decide)),
   (c6_builder_validation 3 ⟨0, 1, true, 0⟩).1 (Or.inl (by decide)),
   (c6_builder_validation 3 ⟨0, 3, true, 9⟩).2.1 (by decide) (by decide)
     (Or.inr (by decide)),
   (c6_builder_validation 3 ⟨0, 1, true, 1⟩).2.2.1 (by decide) (by decide)
     (by decide) (by decide),
   (c6_builder_validation 3 ⟨0, 1, true, 9⟩).2.2.1 (by decide) (by decide)
     (by decide) (by decide)⟩

/-- The mirrored intensity-1 judgment that breaks the round-trip: criterion 1
(the higher-indexed side) wins the pair {0, 1} with intensity 1. -/
def ansC8 : Answers := fun i j => if i = 0 ∧ j = 1 then some (false, 1) else none

/-- C8 counterexample: with the judgment "criterion 1 beats criterion 0 with
intensity 1" both off-diagonal cells equal 1, and the spec's re-derivation
reports the lower-indexed criterion 0 as the winner — the original winner
flag is not recovered. -/
theorem c8_counterexample :
    ansC8 0 1 = some (false, 1) ∧
    deriveJudgment (buildMatrix 2 ansC8) 0 1 = (true, (1 : ℚ)) := by
  refine ⟨rfl, ?_⟩
  unfold deriveJudgment
  rw [buildMatrix_top ansC8 (by decide) (by decide),
    buildMatrix_bot ansC8 (by decide) (by decide),
    show ansC8 0 1 = some (false, 1) from rfl]
  norm_num [topVal, botVal]

/-- C8 (amended): re-deriving winner and intensity from the built matrix
recovers every answered judgment whose intensity is at least 2 exactly; for
intensity 1 both cells are 1 and the derivation always reports the
lower-indexed criterion, so the winner flag of an intensity-1 judgment in
favour of the higher-indexed criterion is not recoverable. -/
theorem c8_roundtrip_amended (n : Nat) (ans : Answers) (i j : Nat)
    (hij : i < j) (hjn : j < n) (w : Bool) (v : Nat)
    (hv1 : 1 ≤ v) (hv9 : v ≤ 9) (hans : ans i j = some (w, v)) :
    deriveJudgment (buildMatrix n ans) i j =
      if v = 1 then (true, (1 : ℚ)) else (w, (v : ℚ)) := by
  unfold deriveJudgment
  rw [buildMatrix_top ans hij hjn, buildMatrix_bot ans hij hjn, hans]
  by_cases h1 : v = 1
  · subst h1
    rw [if_pos rfl]
    cases w <;> norm_num [topVal, botVal]
  · rw [if_neg h1]
    cases w
    · have h2 : (1 : ℚ) < (v : ℚ) := by exact_mod_cast (by omega : 1 < v)
      have hlt : (1 : ℚ) / (v : ℚ) < 1 := by
        rw [div_lt_one (lt_trans zero_lt_one h2)]
        exact h2
      simp only [topVal, botVal]
      rw [if_neg (not_le.mpr hlt)]
    · have hge : (1 : ℚ) ≤ (v : ℚ) := by exact_mod_cast hv1
      simp only [topVal, botVal]
      rw [if_pos hge]

/-- A recoverable judgment: criterion 1 beats criterion 0 with intensity 3. -/
def ansC8w : Answers := fun i j => if i = 0 ∧ j = 1 then some (false, 3) else none

/-- Witness for the amended C8: the intensity-3 judgment for the
higher-indexed criterion is recovered exactly. -/
theorem c8_witness :
    deriveJudgment (buildMatrix 2 ansC8w) 0 1 = (false, ((3 : Nat) : ℚ)) := by
  have h := c8_roundtrip_amended 2 ansC8w 0 1 (by decide) (by decide) false 3
    (by decide) (by decide) rfl
  simpa using h

/-- C9 counterexample: the claim says the admin interface accepts any
criterion count up to 20, but the number input is created with
`max_value=10`, so 20 is rejected. -/
theorem c9_counterexample : n_criteria_accepted 20 = false := by decide

/-- C9 (amended): the criterion count accepted at project creation ranges
over 2 ≤ n ≤ 10 (`min_value=2, max_value=10`). -/
theorem c9_accepted_range (n : Nat) :
    n_criteria_accepted n = true ↔ (2 ≤ n ∧ n ≤ 10) := by
  unfold n_criteria_accepted
  exact decide_eq_true_iff

/-- C10: the submission stores every one of the n×n cells as an (i, j, value)
row, and rebuilding from `np.ones` by overwriting each stored cell reproduces
the submitted matrix cell for cell. -/
theorem c10_persistence_roundtrip (n : Nat) (m : Mat) (i j : Nat)
    (hi : i < n) (hj : j < n) :
    reconstruct (storeRows n m) i j = m i j := by
  unfold reconstruct
  exact reconstruct_fold_const i j (m i j) (storeRows n m) ones
    (mem_storeRows.mpr ⟨hi, hj, rfl⟩)
    (fun r hr h1 h2 => by
      obtain ⟨a, b, c⟩ := r
      obtain ⟨_, _, hc⟩ := mem_storeRows.mp hr
      show c = m i j
      rw [hc, show a = i from h1, show b = j from h2])

/-- A concrete 2×2 matrix for the C10 witness. -/
def mC10 : Mat := fun i j => (i : ℚ) + 2 * (j : ℚ)

/-- Witness for C10 at n = 2, cell (0, 1). -/
theorem c10_witness : reconstruct (storeRows 2 mC10) 0 1 = mC10 0 1 :=
  c10_persistence_roundtrip 2 mC10 0 1 (by decide) (by decide)

end AHP
